import Mathlib

/-!
Verification of RAY.js (src/ray.js), a chained canvas drawing library.

The JavaScript source is shallowly embedded over exact rational arithmetic
(`ℚ` stands for JS numbers; the claims under check are about parameter
transforms, not float rounding).  Transcendental quantities that JS computes
with `Math.hypot`, `Math.atan2`, `Math.cos`, `Math.sin` and `Math.pow(·,1.5)`
only feed stamp *positions* or the segment length; they are modelled as
explicit parameters (`dist`, `ca`, `sa`, oracle outputs), never invented.
`Math.random()` is modelled as an oracle function indexed by the loop
position of the draw, so that two calls that differ only in one scalar
argument share the same random environment.
-/

namespace Ray

/-- Embeds `lerp` from src/ray.js line 34: `(a, b, t) => a + (b - a) * t`. -/
def lerp (a b t : ℚ) : ℚ := a + (b - a) * t

/-- Embeds `clamp` from src/ray.js line 35:
`(v, min, max) => Math.max(min, Math.min(max, v))`. -/
def clamp (v lo hi : ℚ) : ℚ := max lo (min hi v)

/-- Embeds `_fade` from src/ray.js line 51: `t => t*t*t*(t*(t*6-15)+10)`. -/
def fade (t : ℚ) : ℚ := t * t * t * (t * (t * 6 - 15) + 10)

/-- Embeds `_grad` from src/ray.js lines 52-57.  `hash & 15` is `hash % 16` on the
nonnegative table bytes; `h & 1` and `h & 2` are the low two bits. -/
def grad (hash : ℕ) (x y z : ℚ) : ℚ :=
  let h := hash % 16
  let u := if h < 8 then x else y
  let v := if h < 4 then y else if h = 12 ∨ h = 14 then x else z
  (if h % 2 = 0 then u else -u) + (if h / 2 % 2 = 0 then v else -v)

/-- Embeds `Math.floor(x) & 255` of src/ray.js line 60.  JS `&` acts on the int32
value, and for any int `n`, `n & 255` equals the Euclidean remainder
`n % 256`, which is what `Int.emod` computes. -/
def latticeIdx (x : ℚ) : ℕ := (⌊x⌋ % 256).toNat

/-- Embeds `x -= Math.floor(x)` of src/ray.js line 61: the fractional part. -/
def fracPart (x : ℚ) : ℚ := x - ⌊x⌋

/-- Body of `noise` (src/ray.js lines 62-68) after the lattice cell and the
fractional offsets have been computed: table lookups, gradients at the eight
cell corners and the trilinear blend through the faded weights.
`p` is the 512-entry permutation table `noise_p` read as a function. -/
def noiseCore (p : ℕ → ℕ) (X Y Z : ℕ) (xf yf zf : ℚ) : ℚ :=
  let u := fade xf
  let v := fade yf
  let w := fade zf
  let A := p X + Y
  let AA := p A + Z
  let AB := p (A + 1) + Z
  let B := p (X + 1) + Y
  let BA := p B + Z
  let BB := p (B + 1) + Z
  lerp
    (lerp (lerp (grad (p AA) xf yf zf) (grad (p BA) (xf - 1) yf zf) u)
      (lerp (grad (p AB) xf (yf - 1) zf) (grad (p BB) (xf - 1) (yf - 1) zf) u) v)
    (lerp (lerp (grad (p (AA + 1)) xf yf (zf - 1)) (grad (p (BA + 1)) (xf - 1) yf (zf - 1)) u)
      (lerp (grad (p (AB + 1)) xf (yf - 1) (zf - 1))
        (grad (p (BB + 1)) (xf - 1) (yf - 1) (zf - 1)) u) v) w

/-- Embeds `noise` from src/ray.js lines 58-69, for an already-built
permutation table `p` (the lazy `_initNoise` build is a process-wide random
shuffle; every statement below quantifies over, or fixes, the result). -/
def noise (p : ℕ → ℕ) (x y z : ℚ) : ℚ :=
  noiseCore p (latticeIdx x) (latticeIdx y) (latticeIdx z)
    (fracPart x) (fracPart y) (fracPart z)

/-- The `steps = Math.max(1, Math.ceil(dist / s))` pattern shared by every stroke
routine (src/ray.js lines 328, 341, 356, 375, 415, 457). -/
def stepCount (dist s : ℚ) : ℕ := (max 1 ⌈dist / s⌉).toNat

/-- The atomic output of the stroke synthesis engine: one `api.stamp(x, y, r,
alpha, color)` submission (src/ray.js lines 314-323). -/
structure Stamp where
  x : ℚ
  y : ℚ
  r : ℚ
  alpha : ℚ
  color : String
deriving DecidableEq

/-- Embeds `marker` (src/ray.js lines 325-336): the sequence of stamps one call
submits.  `dist` is the segment length `Math.hypot(x - px, y - py)`, passed
as a parameter since square roots leave ℚ. -/
def markerStamps (x y px py pressure : ℚ) (color : String) (size dist : ℚ) :
    List Stamp :=
  let steps := stepCount dist 2
  let press := clamp pressure 0 1
  let baseR := size + press * (size * (8/10))
  (List.range (steps + 1)).map fun (i : ℕ) =>
    let t : ℚ := (i : ℚ) / (steps : ℚ)
    { x := lerp px x t, y := lerp py y t, r := baseR * (1 - t * (1/10)),
      alpha := 4/10, color := color }

/-- Embeds `brush` (src/ray.js lines 338-351), the ink brush.  Same `dist`
convention as `markerStamps`. -/
def brushStamps (p : ℕ → ℕ) (x y px py pressure : ℚ) (color : String)
    (size dist : ℚ) : List Stamp :=
  let steps := stepCount dist (3/2)
  let press := clamp pressure 0 1
  let baseR := size + press * size
  (List.range (steps + 1)).map fun (i : ℕ) =>
    let t : ℚ := (i : ℚ) / (steps : ℚ)
    let lx := lerp px x t
    let ly := lerp py y t
    let n := noise p (lx * (1/10)) (ly * (1/10)) t
    { x := lx, y := ly, r := baseR * (8/10 + n * (4/10)),
      alpha := 1/10 + press * (1/10), color := color }

/-- One candidate micro-stamp of `dry` (src/ray.js lines 359-367): step `i`,
dot `j`.  `rnd i j s` is the `Math.random()` draw in slot `s` of that dot
(0: x offset, 1: y offset, 2: radius jitter, 3: alpha jitter); the Bool is
the `noise(sx * 0.2, sy * 0.2) > 0` emission gate. -/
def dryCandidate (p : ℕ → ℕ) (rnd : ℕ → ℕ → ℕ → ℚ) (x y px py pressure : ℚ)
    (color : String) (size dist : ℚ) (i j : ℕ) : Stamp × Bool :=
  let steps := stepCount dist 2
  let press := clamp pressure (1/10) 1
  let spread := size + press * size
  let t : ℚ := (i : ℚ) / (steps : ℚ)
  let lx := lerp px x t
  let ly := lerp py y t
  let offset := (rnd i j 0 - 1/2) * spread
  let sx := lx + offset
  let sy := ly + (rnd i j 1 - 1/2) * spread
  ({ x := sx, y := sy, r := 1 + rnd i j 2, alpha := 1/10 + rnd i j 3 * (2/10),
     color := color },
   decide (0 < noise p (sx * (2/10)) (sy * (2/10)) 0))

/-- Embeds `dry` (src/ray.js lines 353-370): `Math.floor(3 + press * 5)` dots per
interpolated step, each emitted only when the noise gate passes. -/
def dryStamps (p : ℕ → ℕ) (rnd : ℕ → ℕ → ℕ → ℚ) (x y px py pressure : ℚ)
    (color : String) (size dist : ℚ) : List Stamp :=
  let steps := stepCount dist 2
  let press := clamp pressure (1/10) 1
  let dots := (⌊(3 : ℚ) + press * 5⌋).toNat
  (List.range (steps + 1)).flatMap fun (i : ℕ) =>
    (List.range dots).filterMap fun (j : ℕ) =>
      let c := dryCandidate p rnd x y px py pressure color size dist i j
      if c.2 then some c.1 else none

/-- One step of `wet` (src/ray.js lines 380-407): a core pigment stamp, a
noise-widened wash stamp, and a probabilistic bloom stamp.  `rnd i s` is the
`Math.random()` draw in slot `s` of step `i` (0: bloom gate, 3: distance
fraction, 4: bloom radius jitter); slots 1 and 2 stand for the cosine and
sine of the random bloom angle, which JS gets from `Math.cos`/`Math.sin`. -/
def wetBlock (p : ℕ → ℕ) (rnd : ℕ → ℕ → ℚ) (x y px py pressure : ℚ)
    (color : String) (size dist : ℚ) (i : ℕ) : List Stamp :=
  let steps := stepCount dist 4
  let press := clamp pressure 0 1
  let baseR := size + press * size
  let t : ℚ := (i : ℚ) / (steps : ℚ)
  let lx := lerp px x t
  let ly := lerp py y t
  let rCore := baseR * (4/10)
  let n := noise p (lx * (5/100)) (ly * (5/100)) t
  let rWash := baseR * (12/10 + n * (5/10))
  let core : Stamp := ⟨lx, ly, rCore, 1/10 + press * (1/10), color⟩
  let wash : Stamp := ⟨lx, ly, rWash, 3/100 + press * (3/100), color⟩
  let blooms : List Stamp :=
    if 9/10 < rnd i 0 then
      let d := rnd i 3 * rWash
      let br := rWash * (4/10 + rnd i 4 * (6/10))
      [⟨lx + rnd i 1 * d, ly + rnd i 2 * d, br, 5/100, color⟩]
    else []
  core :: wash :: blooms

/-- Embeds `wet` (src/ray.js lines 372-410): all stamps of one call. -/
def wetStamps (p : ℕ → ℕ) (rnd : ℕ → ℕ → ℚ) (x y px py pressure : ℚ)
    (color : String) (size dist : ℚ) : List Stamp :=
  (List.range (stepCount dist 4 + 1)).flatMap
    (wetBlock p rnd x y px py pressure color size dist)

/-- One step of `oil` (src/ray.js lines 420-446): five bristle clusters (each
a pigment stamp and a probabilistic groove shadow) plus a highlight on every
third step.  `ca`/`sa` stand for `Math.cos(angle + π/2)`/`Math.sin(angle +
π/2)` of the stroke direction, which only displace positions.  `rnd i j s`
is the draw in slot `s` of cluster `j` (0: density, 1: radius jitter,
2: groove gate). -/
def oilBlock (rnd : ℕ → ℕ → ℕ → ℚ) (x y px py pressure : ℚ) (color : String)
    (size dist ca sa : ℚ) (i : ℕ) : List Stamp :=
  let steps := stepCount dist (4/10)
  let press := clamp pressure (2/10) 1
  let baseR := size + press * size
  let t : ℚ := (i : ℚ) / (steps : ℚ)
  let lx := lerp px x t
  let ly := lerp py y t
  let r := baseR
  let clusters : ℕ := 5
  ((List.range clusters).flatMap fun (j : ℕ) =>
    let off := ((j : ℚ) / (clusters : ℚ) - 1/2) * r * (12/10)
    let bx := lx + ca * off
    let bly := ly + sa * off
    let dens := 5/100 + rnd i j 0 * (15/100)
    let s1 : Stamp := ⟨bx, bly, r * (4/10) * (8/10 + rnd i j 1 * (4/10)), dens, color⟩
    let grooves : List Stamp :=
      if 8/10 < rnd i j 2 then [⟨bx, bly, r * (15/100), 1/10, "#000000"⟩] else []
    s1 :: grooves)
  ++ (if i % 3 = 0 then
        [⟨lx + ca * (r * (4/10)), ly + sa * (r * (4/10)), r * (3/10), 8/100, "#ffffff"⟩]
      else [])

/-- Embeds `oil` (src/ray.js lines 412-448): all stamps of one call. -/
def oilStamps (rnd : ℕ → ℕ → ℕ → ℚ) (x y px py pressure : ℚ) (color : String)
    (size dist ca sa : ℚ) : List Stamp :=
  (List.range (stepCount dist (4/10) + 1)).flatMap
    (oilBlock rnd x y px py pressure color size dist ca sa)

/-- One oriented rectangle the palette knife fills, in the rotated local
frame set up by `setTransform`/`rotate` (src/ray.js lines 469-487). -/
structure KnifeRect where
  rx : ℚ
  ry : ℚ
  w : ℚ
  h : ℚ
  alpha : ℚ
  color : String
deriving DecidableEq

/-- One step of `knife` (src/ray.js lines 465-488): body rectangle, white
highlight strip, black shadow strip, and a probabilistic edge chip.
`rnd i` is the chip gate draw of step `i`. -/
def knifeBlock (rnd : ℕ → ℚ) (pressure size : ℚ) (color : String) (i : ℕ) :
    List KnifeRect :=
  let press := clamp pressure (2/10) 1
  let kw := size * (6/10 + press * (22/10))
  let kh := size * (2/10) + press * (size * (15/100))
  [⟨-kh/2, -kw/2, kh, kw, 8/10, color⟩,
   ⟨-kh/2, -kw/2, kh * (3/10), kw, 2/10, "#ffffff"⟩,
   ⟨kh * (2/10), -kw/2, kh * (3/10), kw, 2/10, "#000000"⟩]
  ++ (if 7/10 < rnd i then [⟨kh * (4/10), -kw/4, kh * (2/10), kw/2, 1, color⟩] else [])

/-- Embeds `knife` (src/ray.js lines 453-493): all rectangles of one call. -/
def knifeRects (rnd : ℕ → ℚ) (pressure : ℚ) (color : String) (size dist : ℚ) :
    List KnifeRect :=
  (List.range (stepCount dist (3/2) + 1)).flatMap (knifeBlock rnd pressure size color)

/-- Embeds `splatter` (src/ray.js lines 495-508): `Math.floor(intensity * 15)`
stamps thrown around `(x, y)`.  `rnd i s` is the draw in slot `s` of stamp
`i`; slots 0 and 1 stand for the cosine and sine of the random angle, slot 2
for the value `Math.pow(Math.random(), 1.5)` (all three only displace the
position), slot 3 is the radius jitter and slot 4 the alpha jitter. -/
def splatterStamps (rnd : ℕ → ℕ → ℚ) (x y intensity : ℚ) (color : String)
    (size : ℚ) : List Stamp :=
  let count := (⌊intensity * 15⌋).toNat
  let spread := intensity * 60 * size
  (List.range count).map fun (i : ℕ) =>
    let d := rnd i 2 * spread
    let r := (8/10 + rnd i 3 * (25/10)) * (intensity * (4/10) + 6/10) * size
    ⟨x + rnd i 0 * d, y + rnd i 1 * d, r, 3/10 + rnd i 4 * (5/10), color⟩

/-- One primitive operation issued to the underlying 2D drawing context.
Writes to context attributes (`fillStyle`, `strokeStyle`, `lineWidth`,
`globalAlpha`, `globalCompositeOperation`, `shadowBlur`, `shadowColor`) and
path/raster calls are recorded in submission order. -/
inductive Effect where
  | fillStyleW (c : String)
  | strokeStyleW (c : String)
  | lineWidthW (w : ℚ)
  | globalAlphaW (a : ℚ)
  | compositeW (m : String)
  | shadowBlurW (b : ℚ)
  | shadowColorW (c : String)
  | beginPathE
  | arcE (x y r : ℚ)
  | fillE
  | strokeE
  | fillRectE (x y w h : ℚ)
  | strokeRectE (x y w h : ℚ)
  | moveToE (x y : ℚ)
  | lineToE (x y : ℚ)
  | saveE
  | restoreE
  | setTransformE
  | rafE
deriving DecidableEq

/-- The module-level mutable state of the IIFE in src/ray.js lines 9-26 that
the modelled operations read or write: whether a 2D context is attached
(`ctx !== null`), the style cache (`lastFill`, `lastStroke`,
`lastLineWidth`), the context's current `globalAlpha`, the glow state, the
`running` flag and the logical canvas size. -/
structure Engine where
  ctx : Bool
  lastFill : Option String
  lastStroke : Option String
  lastLineWidth : Option ℚ
  globalAlpha : ℚ
  glowLevel : ℚ
  glowColor : String
  running : Bool
  width : ℚ
  height : ℚ
deriving DecidableEq

/-- Embeds `setFill` (src/ray.js lines 71-78): `null` means "report not applied and
touch nothing"; a write to `ctx.fillStyle` happens only when the color
differs from the cached one. -/
def setFill (fill : Option String) (e : Engine) : Bool × Engine × List Effect :=
  match fill with
  | none => (false, e, [])
  | some c =>
    if some c = e.lastFill then (true, e, [])
    else (true, { e with lastFill := some c }, [Effect.fillStyleW c])

/-- Embeds `setStroke` (src/ray.js lines 80-91): the color is cached like `setFill`;
the width (when non-null) is cached separately. -/
def setStroke (stroke : Option String) (widthValue : Option ℚ) (e : Engine) :
    Bool × Engine × List Effect :=
  match stroke with
  | none => (false, e, [])
  | some c =>
    let step1 : Engine × List Effect :=
      if some c = e.lastStroke then (e, [])
      else ({ e with lastStroke := some c }, [Effect.strokeStyleW c])
    match widthValue with
    | none => (true, step1.1, step1.2)
    | some w =>
      if some w = step1.1.lastLineWidth then (true, step1.1, step1.2)
      else (true, { step1.1 with lastLineWidth := some w },
        step1.2 ++ [Effect.lineWidthW w])

/-- Body of `stamp` once a context is attached (src/ray.js lines 316-322):
save `globalAlpha`, set it to `alpha`, trace and fill the disc, restore. -/
def stampCore (x y r alpha : ℚ) (color : Option String) (e : Engine) :
    Engine × List Effect :=
  let sf := setFill color { e with globalAlpha := alpha }
  ({ sf.2.1 with globalAlpha := e.globalAlpha },
   [Effect.globalAlphaW alpha, Effect.beginPathE, Effect.arcE x y r]
     ++ sf.2.2 ++ [Effect.fillE, Effect.globalAlphaW e.globalAlpha])

/-- Submit a stamp sequence through `api.stamp`, threading the style cache. -/
def runStamps (l : List Stamp) (e : Engine) : Engine × List Effect :=
  match l with
  | [] => (e, [])
  | s :: rest =>
    let c := stampCore s.x s.y s.r s.alpha (some s.color) e
    let res := runStamps rest c.1
    (res.1, c.2 ++ res.2)

/-- Embeds `stamp` (src/ray.js lines 314-323).  Unlike every other operation it ends
without `return api`, so the JS call evaluates to `undefined` (`none` here)
on both paths. -/
def stamp (x y r alpha : ℚ) (color : Option String) (e : Engine) :
    Engine × Option Unit × List Effect :=
  if e.ctx then
    let c := stampCore x y r alpha color e
    (c.1, none, c.2)
  else (e, none, [])

/-- Embeds `circle` (src/ray.js lines 224-234).  `setStroke(stroke)` leaves the JS
width parameter at its default `1`. -/
def circle (x y r : ℚ) (fill stroke : Option String) (e : Engine) :
    Engine × Option Unit × List Effect :=
  if e.ctx then
    let sf := setFill fill e
    let ss := setStroke stroke (some 1) sf.2.1
    if !sf.1 && !ss.1 then (ss.2.1, some (), sf.2.2 ++ ss.2.2)
    else
      (ss.2.1, some (),
       sf.2.2 ++ ss.2.2 ++ [Effect.beginPathE, Effect.arcE x y r]
         ++ (if sf.1 then [Effect.fillE] else [])
         ++ (if ss.1 then [Effect.strokeE] else []))
  else (e, some (), [])

/-- Embeds `rect` (src/ray.js lines 215-222). -/
def rect (x y w h : ℚ) (fill stroke : Option String) (e : Engine) :
    Engine × Option Unit × List Effect :=
  if e.ctx then
    let sf := setFill fill e
    let ss := setStroke stroke (some 1) sf.2.1
    (ss.2.1, some (),
     sf.2.2 ++ ss.2.2 ++ (if sf.1 then [Effect.fillRectE x y w h] else [])
       ++ (if ss.1 then [Effect.strokeRectE x y w h] else []))
  else (e, some (), [])

/-- Embeds `line` (src/ray.js lines 236-244): strokes unconditionally, ignoring the
`setStroke` report. -/
def line (x1 y1 x2 y2 : ℚ) (color : Option String) (widthValue : ℚ)
    (e : Engine) : Engine × Option Unit × List Effect :=
  if e.ctx then
    let ss := setStroke color (some widthValue) e
    (ss.2.1, some (),
     ss.2.2 ++ [Effect.beginPathE, Effect.moveToE x1 y1, Effect.lineToE x2 y2,
       Effect.strokeE])
  else (e, some (), [])

/-- Embeds `mode` (src/ray.js line 197). -/
def mode (type : String) (e : Engine) : Engine × Option Unit × List Effect :=
  if e.ctx then (e, some (), [Effect.compositeW type]) else (e, some (), [])

/-- Embeds `cls` (src/ray.js lines 203-213): save, reset the transform, fill the
whole canvas with `color`, restore, then restore the cached fill.  The
`fillRect` covers the full backing store; its device-pixel extent is recorded
here through the logical size (the claims only concern the detached path). -/
def cls (color : String) (e : Engine) : Engine × Option Unit × List Effect :=
  if e.ctx then
    let oldFill := e.lastFill
    let sf := setFill (some color) e
    let sf2 := setFill oldFill sf.2.1
    (sf2.2.1, some (),
     [Effect.saveE, Effect.setTransformE] ++ sf.2.2
       ++ [Effect.fillRectE 0 0 e.width e.height, Effect.restoreE] ++ sf2.2.2)
  else (e, some (), [])

/-- Embeds `glow` (src/ray.js lines 510-517). -/
def glow (level : ℚ) (color : Option String) (e : Engine) :
    Engine × Option Unit × List Effect :=
  if e.ctx then
    let lvl := max 0 level
    let col := match color with | some c => c | none => e.glowColor
    ({ e with glowLevel := lvl, glowColor := col }, some (),
     [Effect.shadowBlurW lvl, Effect.shadowColorW col])
  else (e, some (), [])

/-- The `loop` entry (src/ray.js lines 519-530) for a function callback: sets the
running flag and schedules the first frame.  (The frame closure itself is
modelled by `frameFire` below; `lastTime` only feeds the delta argument.) -/
def loopOp (e : Engine) : Engine × Option Unit × List Effect :=
  if e.ctx then ({ e with running := true }, some (), [Effect.rafE])
  else (e, some (), [])

/-- Embeds `marker` as an engine operation (src/ray.js lines 325-336). -/
def marker (x y px py pressure : ℚ) (color : String) (size dist : ℚ)
    (e : Engine) : Engine × Option Unit × List Effect :=
  if e.ctx then
    let run := runStamps (markerStamps x y px py pressure color size dist) e
    (run.1, some (), run.2)
  else (e, some (), [])

/-- Embeds `brush` as an engine operation (src/ray.js lines 338-351). -/
def brush (p : ℕ → ℕ) (x y px py pressure : ℚ) (color : String)
    (size dist : ℚ) (e : Engine) : Engine × Option Unit × List Effect :=
  if e.ctx then
    let run := runStamps (brushStamps p x y px py pressure color size dist) e
    (run.1, some (), run.2)
  else (e, some (), [])

/-- Embeds `splatter` as an engine operation (src/ray.js lines 495-508). -/
def splatter (rnd : ℕ → ℕ → ℚ) (x y intensity : ℚ) (color : String)
    (size : ℚ) (e : Engine) : Engine × Option Unit × List Effect :=
  if e.ctx then
    let run := runStamps (splatterStamps rnd x y intensity color size) e
    (run.1, some (), run.2)
  else (e, some (), [])

/-- State of the animation driver (src/ray.js lines 519-532): the `running`
flag, whether a `requestAnimationFrame` callback is currently queued (the
self-rescheduling `frame` closure keeps at most one in flight), and how many
times the user callback has been invoked. -/
structure Driver where
  running : Bool
  scheduled : Bool
  calls : ℕ
deriving DecidableEq

/-- One queued frame firing (the `frame` closure, src/ray.js lines 522-528):
with nothing queued nothing happens; if the running flag is cleared the frame
returns without invoking the callback and without rescheduling; otherwise
the user callback runs (`cbStops` says whether it calls `stop()` during its
run) and the frame then unconditionally reschedules itself. -/
def frameFire (d : Driver) (cbStops : Bool) : Driver :=
  if !d.scheduled then d
  else if !d.running then { d with scheduled := false }
  else { running := !cbStops, scheduled := true, calls := d.calls + 1 }

/-- Embeds `stop` (src/ray.js line 532): clears the running flag, nothing else. -/
def stopLoop (d : Driver) : Driver := { d with running := false }

/-- A detached engine: the state right after `destroy()` (src/ray.js lines
188-195) or before any `init`. -/
def detachedEngine : Engine :=
  { ctx := false, lastFill := none, lastStroke := none, lastLineWidth := none,
    globalAlpha := 1, glowLevel := 0, glowColor := "#ffffff", running := false,
    width := 0, height := 0 }

/-- A specific permutation of `0..255`, written as disjoint cycles
(`0 10 30 16`) (`1 20 50`) (`11 40 2`) (`21 60 3`) (`31 6`) (`41 22`)
(`51 7`) (`61 23`) with every other byte fixed.  `_initNoise`
(src/ray.js lines 40-50) draws a uniformly random permutation by
Fisher-Yates shuffle, so every permutation — this one included — is a
possible `noise_p` prefix. -/
def sigma (i : ℕ) : ℕ :=
  if i = 0 then 10 else if i = 10 then 30 else if i = 30 then 16 else if i = 16 then 0
  else if i = 1 then 20 else if i = 20 then 50 else if i = 50 then 1
  else if i = 11 then 40 else if i = 40 then 2 else if i = 2 then 11
  else if i = 21 then 60 else if i = 60 then 3 else if i = 3 then 21
  else if i = 31 then 6 else if i = 6 then 31
  else if i = 41 then 22 else if i = 22 then 41
  else if i = 51 then 7 else if i = 7 then 51
  else if i = 61 then 23 else if i = 23 then 61
  else i

/-- The inverse cycles of `sigma`. -/
def sigmaInv (i : ℕ) : ℕ :=
  if i = 10 then 0 else if i = 30 then 10 else if i = 16 then 30 else if i = 0 then 16
  else if i = 20 then 1 else if i = 50 then 20 else if i = 1 then 50
  else if i = 40 then 11 else if i = 2 then 40 else if i = 11 then 2
  else if i = 60 then 21 else if i = 3 then 60 else if i = 21 then 3
  else if i = 6 then 31 else if i = 31 then 6
  else if i = 22 then 41 else if i = 41 then 22
  else if i = 7 then 51 else if i = 51 then 7
  else if i = 23 then 61 else if i = 61 then 23
  else i

/-- The 512-entry `noise_p` table built from `sigma`: the permutation of
`0..255` duplicated once (src/ray.js line 48: `noise_p[i + 256] =
noise_p[i]`). -/
def permTab (i : ℕ) : ℕ := sigma (i % 256)


lemma latticeIdx_add_256 (x : ℚ) : latticeIdx (x + 256) = latticeIdx x := by
  unfold latticeIdx
  have h : ⌊x + (256 : ℚ)⌋ = ⌊x⌋ + 256 := by
    exact_mod_cast Int.floor_add_int x (256 : ℤ)
  rw [h]
  omega

lemma fracPart_add_256 (x : ℚ) : fracPart (x + 256) = fracPart x := by
  unfold fracPart
  have h : ⌊x + (256 : ℚ)⌋ = ⌊x⌋ + 256 := by
    exact_mod_cast Int.floor_add_int x (256 : ℤ)
  rw [h]
  push_cast
  ring

lemma fracPart_nonneg (x : ℚ) : 0 ≤ fracPart x := by
  unfold fracPart
  linarith [Int.floor_le x]

lemma fracPart_lt_one (x : ℚ) : fracPart x < 1 := by
  unfold fracPart
  linarith [Int.lt_floor_add_one x]

lemma fade_nonneg {t : ℚ} (h0 : 0 ≤ t) : 0 ≤ fade t := by
  have hq : 0 ≤ t * (t * 6 - 15) + 10 := by nlinarith [sq_nonneg (t - 5/4)]
  have := mul_nonneg (mul_nonneg (mul_nonneg h0 h0) h0) hq
  unfold fade
  linarith

lemma fade_le_one {t : ℚ} (h0 : 0 ≤ t) (h1 : t ≤ 1) : fade t ≤ 1 := by
  have ht : (0:ℚ) ≤ 1 - t := by linarith
  have hq : (0:ℚ) ≤ 6*t*t + 3*t + 1 := by nlinarith [sq_nonneg t]
  have key : 0 ≤ (1-t) * (1-t) * (1-t) * (6*t*t + 3*t + 1) :=
    mul_nonneg (mul_nonneg (mul_nonneg ht ht) ht) hq
  unfold fade
  nlinarith [key]

/-- Whatever hash it is fed, `_grad` returns `±u ± v` for two of the three
offsets, so its magnitude is at most the sum of the three magnitudes. -/
lemma grad_abs_le (hash : ℕ) (x y z : ℚ) : |grad hash x y z| ≤ |x| + |y| + |z| := by
  simp only [grad]
  split_ifs <;>
    first
      | (exfalso; omega)
      | (refine le_trans (abs_add _ _) ?_
         try simp only [abs_neg]
         linarith [abs_nonneg x, abs_nonneg y, abs_nonneg z])

lemma abs_lerp_le_of {a b t A B : ℚ} (ht0 : 0 ≤ t) (ht1 : t ≤ 1)
    (ha : |a| ≤ A) (hb : |b| ≤ B) : |lerp a b t| ≤ (1 - t) * A + t * B := by
  have h : lerp a b t = (1 - t) * a + t * b := by unfold lerp; ring
  rw [h]
  calc |(1 - t) * a + t * b| ≤ |(1 - t) * a| + |t * b| := abs_add _ _
    _ = (1 - t) * |a| + t * |b| := by
        rw [abs_mul, abs_mul, abs_of_nonneg (by linarith : (0:ℚ) ≤ 1 - t),
          abs_of_nonneg ht0]
    _ ≤ (1 - t) * A + t * B := by
        have h1 := mul_le_mul_of_nonneg_left ha (by linarith : (0:ℚ) ≤ 1 - t)
        have h2 := mul_le_mul_of_nonneg_left hb ht0
        linarith

/-- The trilinear blend of eight corner values, each bounded by the sum of
its per-axis offset magnitudes, is bounded by the sum of the three per-axis
weighted offset magnitudes. -/
lemma trilerp_bound {u v w : ℚ} (hu0 : 0 ≤ u) (hu1 : u ≤ 1)
    (hv0 : 0 ≤ v) (hv1 : v ≤ 1) (hw0 : 0 ≤ w) (hw1 : w ≤ 1)
    {g000 g100 g010 g110 g001 g101 g011 g111 ax0 ax1 ay0 ay1 az0 az1 : ℚ}
    (h000 : |g000| ≤ ax0 + ay0 + az0) (h100 : |g100| ≤ ax1 + ay0 + az0)
    (h010 : |g010| ≤ ax0 + ay1 + az0) (h110 : |g110| ≤ ax1 + ay1 + az0)
    (h001 : |g001| ≤ ax0 + ay0 + az1) (h101 : |g101| ≤ ax1 + ay0 + az1)
    (h011 : |g011| ≤ ax0 + ay1 + az1) (h111 : |g111| ≤ ax1 + ay1 + az1) :
    |lerp (lerp (lerp g000 g100 u) (lerp g010 g110 u) v)
        (lerp (lerp g001 g101 u) (lerp g011 g111 u) v) w|
      ≤ ((1-u)*ax0 + u*ax1) + ((1-v)*ay0 + v*ay1) + ((1-w)*az0 + w*az1) := by
  refine le_trans
    (abs_lerp_le_of hw0 hw1
      (abs_lerp_le_of hv0 hv1
        (abs_lerp_le_of hu0 hu1 h000 h100) (abs_lerp_le_of hu0 hu1 h010 h110))
      (abs_lerp_le_of hv0 hv1
        (abs_lerp_le_of hu0 hu1 h001 h101) (abs_lerp_le_of hu0 hu1 h011 h111)))
    (le_of_eq (by ring))

/-- Key fact behind the sharp noise range: the fade-weighted mean of an axis
offset `t` and its complement `1 - t` never exceeds `1/2`, because the fade
curve crosses `1/2` exactly where `t` does. -/
lemma fadeWeight_le_half {t : ℚ} (h0 : 0 ≤ t) (h1 : t ≤ 1) :
    (1 - fade t) * t + fade t * (1 - t) ≤ 1/2 := by
  have h1' : 0 ≤ (1 - 2*t)^2 * (t*(t-1))^2 := mul_nonneg (sq_nonneg _) (sq_nonneg _)
  have h2' : 0 ≤ (1 - 2*t)^2 * (2*t*(1-t) + 1) := by
    have : (0:ℚ) ≤ 2*t*(1-t) + 1 := by nlinarith [mul_nonneg h0 (by linarith : (0:ℚ) ≤ 1 - t)]
    exact mul_nonneg (sq_nonneg _) this
  have key : 1/2 - ((1 - fade t) * t + fade t * (1 - t))
      = 3*((1 - 2*t)^2 * (t*(t-1))^2) + (1/2)*((1 - 2*t)^2 * (2*t*(1-t) + 1)) := by
    unfold fade; ring
  linarith

lemma noiseCore_abs_le (p : ℕ → ℕ) (X Y Z : ℕ) {xf yf zf : ℚ}
    (hx0 : 0 ≤ xf) (hx1 : xf ≤ 1) (hy0 : 0 ≤ yf) (hy1 : yf ≤ 1)
    (hz0 : 0 ≤ zf) (hz1 : zf ≤ 1) :
    |noiseCore p X Y Z xf yf zf| ≤ 3/2 := by
  have hax : |xf| = xf := abs_of_nonneg hx0
  have hax' : |xf - 1| = 1 - xf := by
    rw [abs_of_nonpos (by linarith : xf - 1 ≤ 0)]; ring
  have hay : |yf| = yf := abs_of_nonneg hy0
  have hay' : |yf - 1| = 1 - yf := by
    rw [abs_of_nonpos (by linarith : yf - 1 ≤ 0)]; ring
  have haz : |zf| = zf := abs_of_nonneg hz0
  have haz' : |zf - 1| = 1 - zf := by
    rw [abs_of_nonpos (by linarith : zf - 1 ≤ 0)]; ring
  have B000 : ∀ hsh, |grad hsh xf yf zf| ≤ xf + yf + zf := fun hsh => by
    have h := grad_abs_le hsh xf yf zf; rwa [hax, hay, haz] at h
  have B100 : ∀ hsh, |grad hsh (xf-1) yf zf| ≤ (1-xf) + yf + zf := fun hsh => by
    have h := grad_abs_le hsh (xf-1) yf zf; rwa [hax', hay, haz] at h
  have B010 : ∀ hsh, |grad hsh xf (yf-1) zf| ≤ xf + (1-yf) + zf := fun hsh => by
    have h := grad_abs_le hsh xf (yf-1) zf; rwa [hax, hay', haz] at h
  have B110 : ∀ hsh, |grad hsh (xf-1) (yf-1) zf| ≤ (1-xf) + (1-yf) + zf := fun hsh => by
    have h := grad_abs_le hsh (xf-1) (yf-1) zf; rwa [hax', hay', haz] at h
  have B001 : ∀ hsh, |grad hsh xf yf (zf-1)| ≤ xf + yf + (1-zf) := fun hsh => by
    have h := grad_abs_le hsh xf yf (zf-1); rwa [hax, hay, haz'] at h
  have B101 : ∀ hsh, |grad hsh (xf-1) yf (zf-1)| ≤ (1-xf) + yf + (1-zf) := fun hsh => by
    have h := grad_abs_le hsh (xf-1) yf (zf-1); rwa [hax', hay, haz'] at h
  have B011 : ∀ hsh, |grad hsh xf (yf-1) (zf-1)| ≤ xf + (1-yf) + (1-zf) := fun hsh => by
    have h := grad_abs_le hsh xf (yf-1) (zf-1); rwa [hax, hay', haz'] at h
  have B111 : ∀ hsh, |grad hsh (xf-1) (yf-1) (zf-1)| ≤ (1-xf) + (1-yf) + (1-zf) := fun hsh => by
    have h := grad_abs_le hsh (xf-1) (yf-1) (zf-1); rwa [hax', hay', haz'] at h
  simp only [noiseCore]
  refine le_trans
    (trilerp_bound (fade_nonneg hx0) (fade_le_one hx0 hx1)
      (fade_nonneg hy0) (fade_le_one hy0 hy1)
      (fade_nonneg hz0) (fade_le_one hz0 hz1)
      (B000 _) (B100 _) (B010 _) (B110 _) (B001 _) (B101 _) (B011 _) (B111 _)) ?_
  linarith [fadeWeight_le_half hx0 hx1, fadeWeight_le_half hy0 hy1,
    fadeWeight_le_half hz0 hz1]

/-- Sharp range of the embedded noise, for every table: `|noise| ≤ 3/2`. -/
lemma noise_abs_le (p : ℕ → ℕ) (x y z : ℚ) : |noise p x y z| ≤ 3/2 := by
  unfold noise
  exact noiseCore_abs_le p _ _ _
    (fracPart_nonneg x) (le_of_lt (fracPart_lt_one x))
    (fracPart_nonneg y) (le_of_lt (fracPart_lt_one y))
    (fracPart_nonneg z) (le_of_lt (fracPart_lt_one z))

lemma noise_lower (p : ℕ → ℕ) (x y z : ℚ) : -(3/2) ≤ noise p x y z :=
  (abs_le.mp (noise_abs_le p x y z)).1

lemma noise_upper (p : ℕ → ℕ) (x y z : ℚ) : noise p x y z ≤ 3/2 :=
  (abs_le.mp (noise_abs_le p x y z)).2

/-- C7: for every permutation table and all exact inputs, shifting any one
coordinate by 256 leaves the noise value unchanged: the lattice index is taken
mod 256 and the fractional offset is unchanged, so every quantity entering the
trilinear blend is identical.  (256-unit periodicity along each axis.) -/
theorem noise_periodic_256 (p : ℕ → ℕ) (x y z : ℚ) :
    noise p (x + 256) y z = noise p x y z ∧
    noise p x (y + 256) z = noise p x y z ∧
    noise p x y (z + 256) = noise p x y z := by
  refine ⟨?_, ?_, ?_⟩ <;>
    simp only [noise, latticeIdx_add_256, fracPart_add_256]

/-- C9: `splatter` at intensity 0 emits no stamps (`Math.floor(0 * 15) = 0`
loop iterations), and at intensity 1 it emits exactly
`Math.floor(1 * 15) = 15` stamps, which is between 7 and 15. -/
theorem splatter_intensity_counts (rnd : ℕ → ℕ → ℚ) (x y : ℚ) (color : String)
    (size : ℚ) :
    (splatterStamps rnd x y 0 color size).length = 0 ∧
    7 ≤ (splatterStamps rnd x y 1 color size).length ∧
    (splatterStamps rnd x y 1 color size).length ≤ 15 := by
  refine ⟨?_, ?_, ?_⟩ <;> simp [splatterStamps]

lemma clamp_mono {v1 v2 lo hi : ℚ} (h : v1 ≤ v2) :
    clamp v1 lo hi ≤ clamp v2 lo hi :=
  max_le_max le_rfl (min_le_min le_rfl h)

lemma le_clamp (v lo hi : ℚ) : lo ≤ clamp v lo hi := le_max_left _ _

lemma clamp_le_hi {v lo hi : ℚ} (h : lo ≤ hi) : clamp v lo hi ≤ hi :=
  max_le h (min_le_left _ _)

lemma one_le_stepCount (dist s : ℚ) : 1 ≤ stepCount dist s := by
  unfold stepCount
  have := le_max_left (1 : ℤ) ⌈dist / s⌉
  omega

lemma stepFrac_nonneg (i steps : ℕ) : 0 ≤ (i : ℚ) / (steps : ℚ) := by
  positivity

lemma stepFrac_le_one {i steps : ℕ} (hs : 1 ≤ steps) (hi : i < steps + 1) :
    (i : ℚ) / (steps : ℚ) ≤ 1 := by
  rw [div_le_one (by exact_mod_cast hs : (0:ℚ) < (steps : ℚ))]
  exact_mod_cast Nat.lt_succ_iff.mp hi

lemma forall₂_map_of_forall {α β : Type*} {R : β → β → Prop} (l : List α)
    (f g : α → β) (h : ∀ a ∈ l, R (f a) (g a)) :
    List.Forall₂ R (l.map f) (l.map g) := by
  induction l with
  | nil => simp
  | cons a t ih =>
    simp only [List.map_cons]
    exact List.Forall₂.cons (h a (by simp))
      (ih fun b hb => h b (by simp [hb]))

lemma forall₂_flatMap_of_forall {α β : Type*} {R : β → β → Prop} (l : List α)
    (f g : α → List β) (h : ∀ a ∈ l, List.Forall₂ R (f a) (g a)) :
    List.Forall₂ R (l.flatMap f) (l.flatMap g) := by
  induction l with
  | nil => simp
  | cons a t ih =>
    simp only [List.flatMap_cons]
    exact List.rel_append (h a (by simp))
      (ih fun b hb => h b (by simp [hb]))

lemma frameFire_stopped {d : Driver} (h : d.running = false) (b : Bool) :
    (frameFire d b).calls = d.calls ∧ (frameFire d b).running = false := by
  cases hs : d.scheduled <;> simp [frameFire, h, hs]

lemma foldl_frameFire_stopped (cbs : List Bool) :
    ∀ d : Driver, d.running = false →
      (cbs.foldl frameFire d).calls = d.calls ∧
      (cbs.foldl frameFire d).running = false := by
  induction cbs with
  | nil => intro d h; exact ⟨rfl, h⟩
  | cons b bs ih =>
    intro d h
    have h1 := frameFire_stopped h b
    have h2 := ih (frameFire d b) h1.2
    exact ⟨h2.1.trans h1.1, h2.2⟩

/-- C6: after `stop()`, the already-queued frame observes the cleared flag
and exits without invoking the user callback (`calls` unchanged) and without
rescheduling (`scheduled` is false afterwards); consequently over any future
sequence of frame events the callback count never changes again.  The last
conjunct covers `stop()` issued from inside a running callback: that
in-flight frame still reschedules once, but every later frame adds no
invocation, so no callback ever runs more than one scheduled frame after the
stop. -/
theorem stop_cancels_loop (d : Driver) (cb : Bool) (cbs : List Bool) :
    (frameFire (stopLoop d) cb).calls = d.calls ∧
    (frameFire (stopLoop d) cb).scheduled = false ∧
    (cbs.foldl frameFire (stopLoop d)).calls = d.calls ∧
    (d.running = true → d.scheduled = true →
      (cbs.foldl frameFire (frameFire d true)).calls = d.calls + 1) := by
  refine ⟨(frameFire_stopped rfl cb).1, ?_, (foldl_frameFire_stopped cbs _ rfl).1, ?_⟩
  · cases hs : d.scheduled <;> simp [frameFire, stopLoop, hs]
  · intro hr hs
    have hfire : frameFire d true =
        { running := false, scheduled := true, calls := d.calls + 1 } := by
      simp [frameFire, hr, hs]
    rw [hfire]
    exact (foldl_frameFire_stopped cbs _ rfl).1

/-- Witness for the hypothesis-bearing conjunct of `stop_cancels_loop`:
a running driver with one queued frame whose callback calls `stop()`, then
two further frames. -/
theorem stop_cancels_loop_witness :
    (Driver.mk true true 5).running = true ∧
    (([false, false] : List Bool).foldl frameFire
        (frameFire (Driver.mk true true 5) true)).calls = 5 + 1 :=
  ⟨rfl, (stop_cancels_loop (Driver.mk true true 5) false [false, false]).2.2.2 rfl rfl⟩

/-- C4 counterexample: with no context attached, `stamp` does return without
touching anything, but it returns `undefined` (`none`), not the engine
handle, so the claim that *every* drawing call still returns the chainable
handle is false at this input. -/
theorem stamp_detached_returns_no_handle :
    (stamp 0 0 1 1 (some "#ffffff") detachedEngine).2.1 = none ∧
    ¬ (stamp 0 0 1 1 (some "#ffffff") detachedEngine).2.1 = some () := by
  constructor <;> simp [stamp, detachedEngine]

/-- C4 amended: with no context attached, every modelled drawing, brush or
animation call performs no operation on the drawing surface (empty effect
list), leaves the engine state unchanged, and returns the engine handle —
except `stamp`, which is equally a state-preserving no-op but returns
`undefined`. -/
theorem detached_calls_are_noops (e : Engine) (hc : e.ctx = false)
    (x y px py r w h pressure level widthValue intensity dist size : ℚ)
    (c : String) (fill stroke : Option String) (p : ℕ → ℕ)
    (rnd : ℕ → ℕ → ℚ) :
    circle x y r fill stroke e = (e, some (), []) ∧
    rect x y w h fill stroke e = (e, some (), []) ∧
    line x y px py stroke widthValue e = (e, some (), []) ∧
    mode c e = (e, some (), []) ∧
    cls c e = (e, some (), []) ∧
    glow level fill e = (e, some (), []) ∧
    loopOp e = (e, some (), []) ∧
    marker x y px py pressure c size dist e = (e, some (), []) ∧
    brush p x y px py pressure c size dist e = (e, some (), []) ∧
    splatter rnd x y intensity c size e = (e, some (), []) ∧
    stamp x y r pressure fill e = (e, none, []) := by
  refine ⟨?_, ?_, ?_, ?_, ?_, ?_, ?_, ?_, ?_, ?_, ?_⟩ <;>
    simp [circle, rect, line, mode, cls, glow, loopOp, marker, brush, splatter,
      stamp, hc]

/-- Witness for `detached_calls_are_noops` at the concrete detached engine. -/
theorem detached_calls_are_noops_witness :
    detachedEngine.ctx = false ∧
    mode "multiply" detachedEngine = (detachedEngine, some (), []) :=
  ⟨rfl, (detached_calls_are_noops detachedEngine rfl 0 0 0 0 1 1 1 1 2 1 0 3 1
    "multiply" none none (fun i => i) (fun _ _ => 0)).2.2.2.1⟩

/-- C10: `stamp` evaluates to `undefined` (`none`) whether or not a context
is attached — its body never returns `api` — while `circle` returns the
chainable engine handle on both paths, so `stamp` alone cannot be chained. -/
theorem stamp_never_returns_handle (x y r alpha : ℚ) (color : Option String)
    (xc yc rc : ℚ) (fill stroke : Option String) (e : Engine) :
    (stamp x y r alpha color e).2.1 = none ∧
    (circle xc yc rc fill stroke e).2.1 = some () := by
  constructor
  · by_cases hc : e.ctx <;> simp [stamp, hc]
  · by_cases hc : e.ctx <;> simp [circle, hc]
    split <;> rfl

/-- C5: the style cache never re-issues an identical fill (or stroke/width
pair) twice in a row: immediately repeating `setFill` with the same color
performs no context write, likewise `setStroke` with identical color and
width; and starting from a cache that does not already hold `c`, the pair
`setFill(c); setFill(c)` performs exactly one `fillStyle` write. -/
theorem style_cache_skips_repeat_writes (e : Engine) (c : String) (wv : ℚ) :
    (setFill (some c) (setFill (some c) e).2.1).2.2 = [] ∧
    (setStroke (some c) (some wv) (setStroke (some c) (some wv) e).2.1).2.2 = [] ∧
    (e.lastFill ≠ some c →
      (setFill (some c) e).2.2 ++ (setFill (some c) (setFill (some c) e).2.1).2.2
        = [Effect.fillStyleW c]) := by
  refine ⟨?_, ?_, ?_⟩
  · by_cases h : some c = e.lastFill <;> simp [setFill, h]
  · by_cases h : some c = e.lastStroke <;>
      by_cases h2 : some wv = e.lastLineWidth <;>
        simp [setStroke, h, h2]
  · intro hne
    have h : ¬ (some c = e.lastFill) := fun hh => hne hh.symm
    simp [setFill, h]

/-- Witness for `style_cache_skips_repeat_writes`: a fresh post-init cache
and the scripted sequence `setFill("#fff"); setFill("#fff")`. -/
theorem style_cache_skips_repeat_writes_witness :
    detachedEngine.lastFill ≠ some "#fff" ∧
    (setFill (some "#fff") detachedEngine).2.2
        ++ (setFill (some "#fff") (setFill (some "#fff") detachedEngine).2.1).2.2
      = [Effect.fillStyleW "#fff"] :=
  ⟨by simp [detachedEngine],
   (style_cache_skips_repeat_writes detachedEngine "#fff" 1).2.2
     (by simp [detachedEngine])⟩

/-- C1 counterexample: two marker calls identical except for segment length
(hence derived velocity), at fixed pressure 1 and default size 6.  The claim
says every corresponding stamp radius under the higher velocity is ≤ the one
under the lower velocity, but stamp 1 of the `dist = 4` call has radius
10.26 while stamp 1 of the `dist = 2` call has radius 9.72: the marker taper
factor `1 - (i / steps) * 0.1` grows when more steps are taken, and nothing
else in the radius depends on the segment. -/
theorem marker_radius_velocity_counterexample :
    ((markerStamps 2 0 0 0 1 "#1a1a1a" 6 2).getD 1 ⟨0, 0, 0, 0, "#1a1a1a"⟩).r
      < ((markerStamps 4 0 0 0 1 "#1a1a1a" 6 4).getD 1 ⟨0, 0, 0, 0, "#1a1a1a"⟩).r := by
  have h1 : stepCount 2 2 = 1 := by
    rw [stepCount, show ⌈(2:ℚ)/2⌉ = 1 by norm_num]
    rfl
  have h2 : stepCount 4 2 = 2 := by
    rw [stepCount, show ⌈(4:ℚ)/2⌉ = 2 by norm_num]
    rfl
  have hr1 : List.range 2 = [0, 1] := by decide
  have hr2 : List.range 3 = [0, 1, 2] := by decide
  simp only [markerStamps, h1, h2, hr1, hr2, List.map_cons, List.map_nil,
    List.getD, clamp, lerp]
  norm_num

section PressureMono

variable {p : ℕ → ℕ} {rnd3 : ℕ → ℕ → ℕ → ℚ} {rnd2 : ℕ → ℕ → ℚ} {rnd1 : ℕ → ℚ}

lemma markerStamps_pressure_mono (x y px py p1 p2 size dist : ℚ)
    (color : String) (hsize : 0 ≤ size) (hp : p1 ≤ p2) :
    List.Forall₂ (fun a b => a.r ≤ b.r)
      (markerStamps x y px py p1 color size dist)
      (markerStamps x y px py p2 color size dist) := by
  simp only [markerStamps]
  apply forall₂_map_of_forall
  intro i hi
  have hi' := List.mem_range.mp hi
  have hc := @clamp_mono p1 p2 0 1 hp
  have h0 : 0 ≤ clamp p1 0 1 := le_clamp p1 0 1
  have ht0 := stepFrac_nonneg i (stepCount dist 2)
  have ht1 := stepFrac_le_one (one_le_stepCount dist 2) hi'
  dsimp only
  have hf : (0:ℚ) ≤ 1 - (i : ℚ) / (stepCount dist 2 : ℚ) * (1/10) := by linarith
  have key : (0:ℚ) ≤ ((clamp p2 0 1 - clamp p1 0 1) * (size * (8/10)))
      * (1 - (i : ℚ) / (stepCount dist 2 : ℚ) * (1/10)) :=
    mul_nonneg (mul_nonneg (by linarith) (by linarith)) hf
  nlinarith [key]

lemma brushStamps_pressure_mono (x y px py p1 p2 size dist : ℚ)
    (color : String) (hsize : 0 ≤ size) (hp : p1 ≤ p2) :
    List.Forall₂ (fun a b => a.r ≤ b.r)
      (brushStamps p x y px py p1 color size dist)
      (brushStamps p x y px py p2 color size dist) := by
  simp only [brushStamps]
  apply forall₂_map_of_forall
  intro i hi
  have hc := @clamp_mono p1 p2 0 1 hp
  dsimp only
  set n := noise p
    (lerp px x ((i : ℚ) / (stepCount dist (3/2) : ℚ)) * (1/10))
    (lerp py y ((i : ℚ) / (stepCount dist (3/2) : ℚ)) * (1/10))
    ((i : ℚ) / (stepCount dist (3/2) : ℚ)) with hn_def
  have hn : -(3/2) ≤ n := hn_def ▸ noise_lower p _ _ _
  have hf : (0:ℚ) ≤ 8/10 + n * (4/10) := by linarith
  have key : (0:ℚ) ≤ ((clamp p2 0 1 - clamp p1 0 1) * size) * (8/10 + n * (4/10)) :=
    mul_nonneg (mul_nonneg (by linarith) hsize) hf
  nlinarith [key]

lemma wetBlock_pressure_mono (x y px py p1 p2 size dist : ℚ) (color : String)
    (hsize : 0 ≤ size) (hp : p1 ≤ p2) (hr : ∀ i s, 0 ≤ rnd2 i s) (i : ℕ) :
    List.Forall₂ (fun a b => a.r ≤ b.r)
      (wetBlock p rnd2 x y px py p1 color size dist i)
      (wetBlock p rnd2 x y px py p2 color size dist i) := by
  have hc := @clamp_mono p1 p2 0 1 hp
  have h0 : 0 ≤ clamp p1 0 1 := le_clamp p1 0 1
  simp only [wetBlock]
  set n := noise p
    (lerp px x ((i : ℚ) / (stepCount dist 4 : ℚ)) * (5/100))
    (lerp py y ((i : ℚ) / (stepCount dist 4 : ℚ)) * (5/100))
    ((i : ℚ) / (stepCount dist 4 : ℚ)) with hn_def
  have hn : -(3/2) ≤ n := hn_def ▸ noise_lower p _ _ _
  have hW : (0:ℚ) ≤ 12/10 + n * (5/10) := by linarith
  refine List.Forall₂.cons ?_ (List.Forall₂.cons ?_ ?_)
  · dsimp only
    have key : (0:ℚ) ≤ ((clamp p2 0 1 - clamp p1 0 1) * size) * (4/10) :=
      mul_nonneg (mul_nonneg (by linarith) hsize) (by norm_num)
    nlinarith [key]
  · dsimp only
    have key : (0:ℚ) ≤ ((clamp p2 0 1 - clamp p1 0 1) * size) * (12/10 + n * (5/10)) :=
      mul_nonneg (mul_nonneg (by linarith) hsize) hW
    nlinarith [key]
  · by_cases hg : (9:ℚ)/10 < rnd2 i 0
    · simp only [if_pos hg]
      refine List.Forall₂.cons ?_ List.Forall₂.nil
      dsimp only
      have hF : (0:ℚ) ≤ 4/10 + rnd2 i 4 * (6/10) := by
        have := hr i 4
        linarith
      have key : (0:ℚ) ≤ (((clamp p2 0 1 - clamp p1 0 1) * size)
          * (12/10 + n * (5/10))) * (4/10 + rnd2 i 4 * (6/10)) :=
        mul_nonneg (mul_nonneg (mul_nonneg (by linarith) hsize) hW) hF
      nlinarith [key]
    · simp only [if_neg hg]
      exact List.Forall₂.nil

lemma oilBlock_pressure_mono (x y px py p1 p2 size dist ca sa : ℚ)
    (color : String) (hsize : 0 ≤ size) (hp : p1 ≤ p2)
    (hr : ∀ i j s, 0 ≤ rnd3 i j s) (i : ℕ) :
    List.Forall₂ (fun a b => a.r ≤ b.r)
      (oilBlock rnd3 x y px py p1 color size dist ca sa i)
      (oilBlock rnd3 x y px py p2 color size dist ca sa i) := by
  have hc := @clamp_mono p1 p2 (2/10) 1 hp
  simp only [oilBlock]
  refine List.rel_append ?_ ?_
  · apply forall₂_flatMap_of_forall
    intro j hj
    dsimp only
    refine List.Forall₂.cons ?_ ?_
    · dsimp only
      have hF : (0:ℚ) ≤ 4/10 * (8/10 + rnd3 i j 1 * (4/10)) := by
        have := hr i j 1
        nlinarith
      have key : (0:ℚ) ≤ ((clamp p2 (2/10) 1 - clamp p1 (2/10) 1) * size)
          * (4/10 * (8/10 + rnd3 i j 1 * (4/10))) :=
        mul_nonneg (mul_nonneg (by linarith) hsize) hF
      nlinarith [key]
    · by_cases hg : (8:ℚ)/10 < rnd3 i j 2
      · simp only [if_pos hg]
        refine List.Forall₂.cons ?_ List.Forall₂.nil
        dsimp only
        have key : (0:ℚ) ≤ ((clamp p2 (2/10) 1 - clamp p1 (2/10) 1) * size) * (15/100) :=
          mul_nonneg (mul_nonneg (by linarith) hsize) (by norm_num)
        nlinarith [key]
      · simp only [if_neg hg]
        exact List.Forall₂.nil
  · by_cases hg : i % 3 = 0
    · simp only [if_pos hg]
      refine List.Forall₂.cons ?_ List.Forall₂.nil
      dsimp only
      have key : (0:ℚ) ≤ ((clamp p2 (2/10) 1 - clamp p1 (2/10) 1) * size) * (3/10) :=
        mul_nonneg (mul_nonneg (by linarith) hsize) (by norm_num)
      nlinarith [key]
    · simp only [if_neg hg]
      exact List.Forall₂.nil

lemma knifeBlock_pressure_mono (p1 p2 size : ℚ) (color : String)
    (hsize : 0 ≤ size) (hp : p1 ≤ p2) (i : ℕ) :
    List.Forall₂ (fun a b => a.w ≤ b.w ∧ a.h ≤ b.h)
      (knifeBlock rnd1 p1 size color i)
      (knifeBlock rnd1 p2 size color i) := by
  have hc := @clamp_mono p1 p2 (2/10) 1 hp
  have key1 : (0:ℚ) ≤ (clamp p2 (2/10) 1 - clamp p1 (2/10) 1) * size :=
    mul_nonneg (by linarith) hsize
  simp only [knifeBlock]
  refine List.rel_append ?_ ?_
  · refine List.Forall₂.cons ⟨?_, ?_⟩ (List.Forall₂.cons ⟨?_, ?_⟩
      (List.Forall₂.cons ⟨?_, ?_⟩ List.Forall₂.nil)) <;>
      (dsimp only; nlinarith [key1])
  · by_cases hg : (7:ℚ)/10 < rnd1 i
    · simp only [if_pos hg]
      refine List.Forall₂.cons ⟨?_, ?_⟩ List.Forall₂.nil <;>
        (dsimp only; nlinarith [key1])
    · simp only [if_neg hg]
      exact List.Forall₂.nil

/-- C3: for every brush kind, raising pressure at fixed velocity (same
segment, same noise table, same random draws) never shrinks any derived
stamp dimension: corresponding stamp radii of `marker`, `brush`, `wet` and
`oil` are ≥, every `dry` micro-stamp candidate keeps its radius (it never
depends on pressure), and both dimensions of every `knife` rectangle grow. -/
theorem pressure_monotone_radii (p : ℕ → ℕ) (rnd3 : ℕ → ℕ → ℕ → ℚ)
    (rnd2 : ℕ → ℕ → ℚ) (rnd1 : ℕ → ℚ) (x y px py p1 p2 size dist ca sa : ℚ)
    (color : String) (hsize : 0 ≤ size) (hp : p1 < p2)
    (hr2 : ∀ i s, 0 ≤ rnd2 i s) (hr3 : ∀ i j s, 0 ≤ rnd3 i j s) :
    List.Forall₂ (fun a b => a.r ≤ b.r)
      (markerStamps x y px py p1 color size dist)
      (markerStamps x y px py p2 color size dist) ∧
    List.Forall₂ (fun a b => a.r ≤ b.r)
      (brushStamps p x y px py p1 color size dist)
      (brushStamps p x y px py p2 color size dist) ∧
    (∀ i j, (dryCandidate p rnd3 x y px py p1 color size dist i j).1.r
      ≤ (dryCandidate p rnd3 x y px py p2 color size dist i j).1.r) ∧
    List.Forall₂ (fun a b => a.r ≤ b.r)
      (wetStamps p rnd2 x y px py p1 color size dist)
      (wetStamps p rnd2 x y px py p2 color size dist) ∧
    List.Forall₂ (fun a b => a.r ≤ b.r)
      (oilStamps rnd3 x y px py p1 color size dist ca sa)
      (oilStamps rnd3 x y px py p2 color size dist ca sa) ∧
    List.Forall₂ (fun a b => a.w ≤ b.w ∧ a.h ≤ b.h)
      (knifeRects rnd1 p1 color size dist)
      (knifeRects rnd1 p2 color size dist) := by
  have hple := le_of_lt hp
  refine ⟨markerStamps_pressure_mono x y px py p1 p2 size dist color hsize hple,
    brushStamps_pressure_mono x y px py p1 p2 size dist color hsize hple,
    fun i j => ?_, ?_, ?_, ?_⟩
  · exact le_rfl
  · exact forall₂_flatMap_of_forall _ _ _ fun i _ =>
      wetBlock_pressure_mono x y px py p1 p2 size dist color hsize hple hr2 i
  · exact forall₂_flatMap_of_forall _ _ _ fun i _ =>
      oilBlock_pressure_mono x y px py p1 p2 size dist ca sa color hsize hple hr3 i
  · exact forall₂_flatMap_of_forall _ _ _ fun i _ =>
      knifeBlock_pressure_mono p1 p2 size color hsize hple i

/-- Witness for `pressure_monotone_radii`: pressures 0 < 1, default marker
size 6, a 2-unit segment, the zero table and constant-half random draws. -/
theorem pressure_monotone_radii_witness :
    (0:ℚ) ≤ 6 ∧ (0:ℚ) < 1 ∧
    List.Forall₂ (fun a b => a.r ≤ b.r)
      (markerStamps 2 0 0 0 0 "#1a1a1a" 6 2)
      (markerStamps 2 0 0 0 1 "#1a1a1a" 6 2) :=
  ⟨by norm_num, by norm_num,
   (pressure_monotone_radii (fun _ => 0) (fun _ _ _ => 1/2) (fun _ _ => 1/2)
     (fun _ => 1/2) 2 0 0 0 0 1 6 2 0 0 "#1a1a1a" (by norm_num) (by norm_num)
     (fun _ _ => by norm_num) (fun _ _ _ => by norm_num)).1⟩

end PressureMono

section VelocityMono

lemma stepCount_mono {d1 d2 s : ℚ} (hs : 0 < s) (h : d1 ≤ d2) :
    stepCount d1 s ≤ stepCount d2 s := by
  unfold stepCount
  have hdiv : d1 / s ≤ d2 / s := by gcongr
  have := Int.ceil_le_ceil hdiv
  omega

lemma getD_map_range {β : Type*} (n i : ℕ) (f : ℕ → β) (d : β) :
    ((List.range n).map f).getD i d = if i < n then f i else d := by
  by_cases h : i < n
  · rw [if_pos h, List.getD_eq_getElem?_getD, List.getElem?_map,
      List.getElem?_range h]
    rfl
  · rw [if_neg h, List.getD_eq_getElem?_getD]
    have hlen : ((List.range n).map f).length ≤ i := by
      simpa using Nat.le_of_not_lt h
    rw [List.getElem?_eq_none hlen]
    rfl

lemma marker_radius_dist_mono (x1 y1 x2 y2 px py pressure size d1 d2 : ℚ)
    (color : String) (i : ℕ) (hsize : 0 ≤ size) (hd : d1 ≤ d2) :
    ((markerStamps x1 y1 px py pressure color size d1).getD i ⟨0, 0, 0, 0, color⟩).r
      ≤ ((markerStamps x2 y2 px py pressure color size d2).getD i ⟨0, 0, 0, 0, color⟩).r := by
  have hsteps := stepCount_mono (by norm_num : (0:ℚ) < 2) hd
  have h1 : 1 ≤ stepCount d1 2 := one_le_stepCount d1 2
  have h2 : 1 ≤ stepCount d2 2 := one_le_stepCount d2 2
  have hbase : (0:ℚ) ≤ size + clamp pressure 0 1 * (size * (8/10)) := by
    have := le_clamp pressure 0 1
    nlinarith
  simp only [markerStamps, getD_map_range]
  by_cases hi1 : i < stepCount d1 2 + 1
  · have hi2 : i < stepCount d2 2 + 1 := by omega
    rw [if_pos hi1, if_pos hi2]
    dsimp only
    have hts : (i:ℚ) / (stepCount d2 2 : ℚ) ≤ (i:ℚ) / (stepCount d1 2 : ℚ) :=
      div_le_div_of_nonneg_left (by positivity)
        (by exact_mod_cast h1) (by exact_mod_cast hsteps)
    have ht1 := stepFrac_le_one h1 hi1
    apply mul_le_mul_of_nonneg_left _ hbase
    linarith
  · by_cases hi2 : i < stepCount d2 2 + 1
    · rw [if_neg hi1, if_pos hi2]
      dsimp only
      have ht0 := stepFrac_nonneg i (stepCount d2 2)
      have ht1 := stepFrac_le_one h2 hi2
      have : (0:ℚ) ≤ 1 - (i:ℚ) / (stepCount d2 2 : ℚ) * (1/10) := by linarith
      exact mul_nonneg hbase this
    · rw [if_neg hi1, if_neg hi2]

lemma oilBlock_radii_dist_invariant (rnd3 : ℕ → ℕ → ℕ → ℚ)
    (x1 y1 x2 y2 px py pressure size d1 d2 ca1 sa1 ca2 sa2 : ℚ)
    (color : String) (i : ℕ) :
    (oilBlock rnd3 x1 y1 px py pressure color size d1 ca1 sa1 i).map Stamp.r
      = (oilBlock rnd3 x2 y2 px py pressure color size d2 ca2 sa2 i).map Stamp.r := by
  simp only [oilBlock, List.map_append, List.map_flatMap]
  congr 1
  · refine congrArg _ (funext fun j => ?_)
    by_cases hg : (8:ℚ)/10 < rnd3 i j 2 <;> simp [hg]
  · by_cases hg : i % 3 = 0 <;> simp [hg]

lemma oilStamps_radii_agree (rnd3 : ℕ → ℕ → ℕ → ℚ)
    (x1 y1 x2 y2 px py pressure size d1 d2 ca1 sa1 ca2 sa2 : ℚ)
    (color : String) (hd : d1 ≤ d2) :
    ∃ rest, (oilStamps rnd3 x2 y2 px py pressure color size d2 ca2 sa2).map Stamp.r
      = (oilStamps rnd3 x1 y1 px py pressure color size d1 ca1 sa1).map Stamp.r
        ++ rest := by
  have hsteps := stepCount_mono (by norm_num : (0:ℚ) < 4/10) hd
  obtain ⟨k, hk⟩ : ∃ k, stepCount d2 (4/10) + 1 = (stepCount d1 (4/10) + 1) + k :=
    ⟨stepCount d2 (4/10) - stepCount d1 (4/10), by omega⟩
  refine ⟨((List.range k).map (fun x => stepCount d1 (4/10) + 1 + x)).flatMap
    (fun i => (oilBlock rnd3 x2 y2 px py pressure color size d2 ca2 sa2 i).map
      Stamp.r), ?_⟩
  simp only [oilStamps, List.map_flatMap]
  rw [hk, List.range_add, List.flatMap_append]
  congr 1
  exact congrArg _ (funext fun i => oilBlock_radii_dist_invariant rnd3 x2 y2 x1 y1
    px py pressure size d2 d1 ca2 sa2 ca1 sa1 color i)

/-- C1 amended: for two calls identical except for the segment (hence for the
derived velocity) at fixed pressure, higher velocity never *shrinks* a
corresponding stamp radius.  For `marker` the i-th stamp radius under the
longer segment is ≥ the i-th under the shorter one (the only velocity
influence is the taper fraction `i / steps`, which falls as steps grow); for
`oil` the radius sequence of the shorter call is a prefix of the longer
call's (oil radii never read the segment at all).  The spec's claimed ≤
direction is refuted by `marker_radius_velocity_counterexample`; `brush`
radii vary only through noise sampled at stamp positions, carrying no
velocity dependence of either sign. -/
theorem velocity_radius_amended (rnd3 : ℕ → ℕ → ℕ → ℚ)
    (x1 y1 x2 y2 px py pressure size d1 d2 ca1 sa1 ca2 sa2 : ℚ)
    (color : String) (hsize : 0 ≤ size) (hd : d1 ≤ d2) :
    (∀ i : ℕ,
      ((markerStamps x1 y1 px py pressure color size d1).getD i ⟨0, 0, 0, 0, color⟩).r
        ≤ ((markerStamps x2 y2 px py pressure color size d2).getD i ⟨0, 0, 0, 0, color⟩).r) ∧
    (∃ rest, (oilStamps rnd3 x2 y2 px py pressure color size d2 ca2 sa2).map Stamp.r
      = (oilStamps rnd3 x1 y1 px py pressure color size d1 ca1 sa1).map Stamp.r
        ++ rest) :=
  ⟨fun i => marker_radius_dist_mono x1 y1 x2 y2 px py pressure size d1 d2 color i
      hsize hd,
   oilStamps_radii_agree rnd3 x1 y1 x2 y2 px py pressure size d1 d2 ca1 sa1
     ca2 sa2 color hd⟩

/-- Witness for `velocity_radius_amended`: segments of length 2 and 4 at
pressure 1, default marker size 6. -/
theorem velocity_radius_amended_witness :
    (0:ℚ) ≤ 6 ∧ (2:ℚ) ≤ 4 ∧
    (((markerStamps 2 0 0 0 1 "#1a1a1a" 6 2).getD 1 ⟨0, 0, 0, 0, "#1a1a1a"⟩).r
      ≤ ((markerStamps 4 0 0 0 1 "#1a1a1a" 6 4).getD 1 ⟨0, 0, 0, 0, "#1a1a1a"⟩).r) :=
  ⟨by norm_num, by norm_num,
   (velocity_radius_amended (fun _ _ _ => 1/2) 2 0 4 0 0 0 1 6 2 4 1 0 1 0
     "#1a1a1a" (by norm_num) (by norm_num)).1 1⟩

end VelocityMono

section StampFloors

/-- C2 counterexample: a concrete `wet` call at pressure 0 (zero noise table,
zero random draws, a 4-unit segment, default size 15).  Its second emitted
stamp is the step-0 water-wash stamp, whose alpha is
`0.03 + press * 0.03 = 0.03 < 0.05`: no clamping to the claimed `alpha ≥
0.05` floor happens anywhere between the formula and `ctx.fill()`. -/
theorem wet_alpha_counterexample :
    ((wetStamps (fun _ => 0) (fun _ _ => 0) 4 0 0 0 0 "#1a1a1a" 15 4).getD 1
        ⟨0, 0, 0, 0, ""⟩).alpha < 5/100 := by
  have h1 : stepCount 4 4 = 1 := by
    rw [stepCount, show ⌈(4:ℚ)/4⌉ = 1 by norm_num]
    rfl
  have hr : List.range 2 = [0, 1] := by decide
  simp only [wetStamps, h1, hr, wetBlock, List.flatMap_cons, List.flatMap_nil]
  norm_num [List.getD_cons_succ, List.getD_cons_zero, clamp]

lemma press01_nonneg (pressure : ℚ) : 0 ≤ clamp pressure 0 1 :=
  le_clamp pressure 0 1

/-- C2 amended: with a nonnegative base size (and intensity), every stamp any
stroke routine submits has nonnegative radius and alpha ≥ 0.03.  The claimed
floors `radius ≥ 0.8` and `alpha ≥ 0.05` do not exist in the code: the wet
wash alpha reaches 0.03 (see `wet_alpha_counterexample`) and no clamping of
radius or alpha happens in `stamp`. -/
theorem stamps_floor_amended (p : ℕ → ℕ) (rnd3 : ℕ → ℕ → ℕ → ℚ)
    (rnd2 : ℕ → ℕ → ℚ) (x y px py pressure intensity size ca sa dist : ℚ)
    (color : String) (hsize : 0 ≤ size) (hint : 0 ≤ intensity)
    (hr2 : ∀ i s, 0 ≤ rnd2 i s) (hr3 : ∀ i j s, 0 ≤ rnd3 i j s) :
    (∀ s ∈ markerStamps x y px py pressure color size dist,
      0 ≤ s.r ∧ 3/100 ≤ s.alpha) ∧
    (∀ s ∈ brushStamps p x y px py pressure color size dist,
      0 ≤ s.r ∧ 3/100 ≤ s.alpha) ∧
    (∀ s ∈ dryStamps p rnd3 x y px py pressure color size dist,
      0 ≤ s.r ∧ 3/100 ≤ s.alpha) ∧
    (∀ s ∈ wetStamps p rnd2 x y px py pressure color size dist,
      0 ≤ s.r ∧ 3/100 ≤ s.alpha) ∧
    (∀ s ∈ oilStamps rnd3 x y px py pressure color size dist ca sa,
      0 ≤ s.r ∧ 3/100 ≤ s.alpha) ∧
    (∀ s ∈ splatterStamps rnd2 x y intensity color size,
      0 ≤ s.r ∧ 3/100 ≤ s.alpha) := by
  have hp0 := press01_nonneg pressure
  refine ⟨?_, ?_, ?_, ?_, ?_, ?_⟩
  · -- marker
    intro s hs
    simp only [markerStamps, List.mem_map, List.mem_range] at hs
    obtain ⟨i, hi, rfl⟩ := hs
    have ht0 := stepFrac_nonneg i (stepCount dist 2)
    have ht1 := stepFrac_le_one (one_le_stepCount dist 2) hi
    constructor
    · dsimp only
      have hb : (0:ℚ) ≤ size + clamp pressure 0 1 * (size * (8/10)) := by nlinarith
      have hf : (0:ℚ) ≤ 1 - (i:ℚ) / (stepCount dist 2 : ℚ) * (1/10) := by linarith
      exact mul_nonneg hb hf
    · dsimp only
      norm_num
  · -- brush
    intro s hs
    simp only [brushStamps, List.mem_map, List.mem_range] at hs
    obtain ⟨i, hi, rfl⟩ := hs
    constructor
    · dsimp only
      have hb : (0:ℚ) ≤ size + clamp pressure 0 1 * size := by nlinarith
      have hn := noise_lower p
        (lerp px x ((i : ℚ) / (stepCount dist (3/2) : ℚ)) * (1/10))
        (lerp py y ((i : ℚ) / (stepCount dist (3/2) : ℚ)) * (1/10))
        ((i : ℚ) / (stepCount dist (3/2) : ℚ))
      have hf : (0:ℚ) ≤ 8/10 + noise p
          (lerp px x ((i : ℚ) / (stepCount dist (3/2) : ℚ)) * (1/10))
          (lerp py y ((i : ℚ) / (stepCount dist (3/2) : ℚ)) * (1/10))
          ((i : ℚ) / (stepCount dist (3/2) : ℚ)) * (4/10) := by linarith
      exact mul_nonneg hb hf
    · dsimp only
      linarith
  · -- dry
    intro s hs
    simp only [dryStamps, List.mem_flatMap, List.mem_filterMap, List.mem_range] at hs
    obtain ⟨i, hi, j, hj, hc⟩ := hs
    by_cases hg : (dryCandidate p rnd3 x y px py pressure color size dist i j).2
    · rw [if_pos hg, Option.some_inj] at hc
      subst hc
      constructor
      · dsimp only [dryCandidate]
        have := hr3 i j 2
        linarith
      · dsimp only [dryCandidate]
        have := hr3 i j 3
        linarith
    · rw [if_neg hg] at hc
      exact absurd hc (by simp)
  · -- wet
    intro s hs
    simp only [wetStamps, List.mem_flatMap, List.mem_range] at hs
    obtain ⟨i, hi, hmem⟩ := hs
    have hb : (0:ℚ) ≤ size + clamp pressure 0 1 * size := by nlinarith
    have hn := noise_lower p
      (lerp px x ((i : ℚ) / (stepCount dist 4 : ℚ)) * (5/100))
      (lerp py y ((i : ℚ) / (stepCount dist 4 : ℚ)) * (5/100))
      ((i : ℚ) / (stepCount dist 4 : ℚ))
    have hW : (0:ℚ) ≤ 12/10 + noise p
        (lerp px x ((i : ℚ) / (stepCount dist 4 : ℚ)) * (5/100))
        (lerp py y ((i : ℚ) / (stepCount dist 4 : ℚ)) * (5/100))
        ((i : ℚ) / (stepCount dist 4 : ℚ)) * (5/10) := by linarith
    simp only [wetBlock, List.mem_cons] at hmem
    rcases hmem with rfl | rfl | hbl
    · exact ⟨by dsimp only; positivity, by dsimp only; linarith⟩
    · exact ⟨by dsimp only; exact mul_nonneg hb hW, by dsimp only; linarith⟩
    · by_cases hg : (9:ℚ)/10 < rnd2 i 0
      · rw [if_pos hg] at hbl
        simp only [List.mem_singleton] at hbl
        subst hbl
        refine ⟨?_, by dsimp only; norm_num⟩
        dsimp only
        have hF : (0:ℚ) ≤ 4/10 + rnd2 i 4 * (6/10) := by
          have := hr2 i 4
          linarith
        exact mul_nonneg (mul_nonneg hb hW) hF
      · rw [if_neg hg] at hbl
        exact absurd hbl (by simp)
  · -- oil
    intro s hs
    simp only [oilStamps, List.mem_flatMap, List.mem_range] at hs
    obtain ⟨i, hi, hmem⟩ := hs
    have hp2 : (0:ℚ) ≤ clamp pressure (2/10) 1 :=
      le_trans (by norm_num) (le_clamp pressure (2/10) 1)
    have hb : (0:ℚ) ≤ size + clamp pressure (2/10) 1 * size := by nlinarith
    simp only [oilBlock, List.mem_append, List.mem_flatMap, List.mem_range] at hmem
    rcases hmem with ⟨j, hj, hcl⟩ | hhl
    · simp only [List.mem_cons] at hcl
      rcases hcl with rfl | hgr
      · constructor
        · dsimp only
          have hF : (0:ℚ) ≤ 8/10 + rnd3 i j 1 * (4/10) := by
            have := hr3 i j 1
            linarith
          have : (0:ℚ) ≤ (size + clamp pressure (2/10) 1 * size) * (4/10) := by linarith
          exact mul_nonneg this hF
        · dsimp only
          have := hr3 i j 0
          linarith
      · by_cases hg : (8:ℚ)/10 < rnd3 i j 2
        · rw [if_pos hg] at hgr
          simp only [List.mem_singleton] at hgr
          subst hgr
          exact ⟨by dsimp only; nlinarith, by dsimp only; norm_num⟩
        · rw [if_neg hg] at hgr
          exact absurd hgr (by simp)
    · by_cases hg : i % 3 = 0
      · rw [if_pos hg] at hhl
        simp only [List.mem_singleton] at hhl
        subst hhl
        exact ⟨by dsimp only; nlinarith, by dsimp only; norm_num⟩
      · rw [if_neg hg] at hhl
        exact absurd hhl (by simp)
  · -- splatter
    intro s hs
    simp only [splatterStamps, List.mem_map, List.mem_range] at hs
    obtain ⟨i, hi, rfl⟩ := hs
    constructor
    · dsimp only
      have h1 : (0:ℚ) ≤ 8/10 + rnd2 i 3 * (25/10) := by
        have := hr2 i 3
        linarith
      have h2 : (0:ℚ) ≤ intensity * (4/10) + 6/10 := by linarith
      exact mul_nonneg (mul_nonneg h1 h2) hsize
    · dsimp only
      have := hr2 i 4
      linarith

/-- Witness for `stamps_floor_amended`: default sizes, pressure 1/2,
intensity 1, constant-half random draws, zero table. -/
theorem stamps_floor_amended_witness :
    (0:ℚ) ≤ 15 ∧ (0:ℚ) ≤ 1 ∧
    (∀ s ∈ wetStamps (fun _ => 0) (fun _ _ => 1/2) 4 0 0 0 (1/2) "#1a1a1a" 15 4,
      0 ≤ s.r ∧ 3/100 ≤ s.alpha) :=
  ⟨by norm_num, by norm_num,
   (stamps_floor_amended (fun _ => 0) (fun _ _ _ => 1/2) (fun _ _ => 1/2)
     4 0 0 0 (1/2) 1 15 0 0 4 "#1a1a1a" (by norm_num) (by norm_num)
     (fun _ _ => by norm_num) (fun _ _ _ => by norm_num)).2.2.2.1⟩

end StampFloors

section NoiseRange

set_option maxRecDepth 4000 in
lemma sigma_leftInv_bound :
    (List.range 256).all
      (fun i => sigmaInv (sigma i) = i && sigma i < 256) = true := by
  decide

lemma sigma_map_nodup : ((List.range 256).map sigma).Nodup := by
  have h := sigma_leftInv_bound
  rw [List.all_eq_true] at h
  refine List.Nodup.map_on ?_ (List.nodup_range 256)
  intro a ha b hb hab
  have h1 := h a ha
  have h2 := h b hb
  simp only [Bool.and_eq_true, decide_eq_true_eq] at h1 h2
  rw [← h1.1, ← h2.1, hab]

/-- C8 counterexample: the table built from the valid permutation `sigma`
(a possible outcome of the Fisher-Yates shuffle in `_initNoise`) drives the
eight corner hashes of the cell at `(1/2, 1/2, 3/10)` to gradients that all
point with the offsets, and the exact noise value there is
`129077/125000 = 1.032616 > 1.0001`: the claimed output interval
`[-1.0001, 1.0001]` does not hold for every permutation table. -/
theorem noise_range_counterexample :
    (10001:ℚ)/10000 < noise permTab (1/2) (1/2) (3/10) ∧
    ((List.range 256).map sigma).Nodup ∧
    ((List.range 256).map sigma).all (· < 256) = true := by
  refine ⟨?_, sigma_map_nodup, ?_⟩
  · have hf2 : (⌊(1:ℚ)/2⌋ : ℤ) = 0 := by norm_num
    have hf10 : (⌊(3:ℚ)/10⌋ : ℤ) = 0 := by norm_num
    have hx : latticeIdx (1/2) = 0 := by rw [latticeIdx, hf2]; rfl
    have hz : latticeIdx (3/10) = 0 := by rw [latticeIdx, hf10]; rfl
    have fx : fracPart (1/2) = 1/2 := by rw [fracPart, hf2]; norm_num
    have fz : fracPart (3/10) = 3/10 := by rw [fracPart, hf10]; norm_num
    rw [noise, hx, hz, fx, fz]
    norm_num [noiseCore, permTab, sigma, grad, fade, lerp]
  · have h := sigma_leftInv_bound
    rw [List.all_eq_true] at h
    rw [List.all_eq_true]
    intro n hn
    rw [List.mem_map] at hn
    obtain ⟨i, hi, rfl⟩ := hn
    have := h i hi
    simp only [Bool.and_eq_true, decide_eq_true_eq] at this ⊢
    exact this.2

/-- C8 amended: for a fixed permutation table the embedded noise is a pure
function of its arguments — two calls with identical inputs return identical
values — and for every table and every input the value lies in the interval
`[-3/2, 3/2]` (each gradient is at most the sum of two offset magnitudes and
the fade-weighted per-axis means are each at most 1/2).  The tighter claimed
interval `[-1.0001, 1.0001]` fails for some valid tables, see
`noise_range_counterexample`. -/
theorem noise_deterministic_and_bounded (p : ℕ → ℕ) (x1 y1 z1 x2 y2 z2 : ℚ)
    (hx : x1 = x2) (hy : y1 = y2) (hz : z1 = z2) :
    noise p x1 y1 z1 = noise p x2 y2 z2 ∧
    -(3/2) ≤ noise p x1 y1 z1 ∧ noise p x1 y1 z1 ≤ 3/2 :=
  ⟨by rw [hx, hy, hz], noise_lower p x1 y1 z1, noise_upper p x1 y1 z1⟩

/-- Witness for `noise_deterministic_and_bounded` at the `sigma` table and
the input `(1/2, 1/2, 3/10)`. -/
theorem noise_deterministic_and_bounded_witness :
    (1:ℚ)/2 = 1/2 ∧
    (-(3/2) ≤ noise permTab (1/2) (1/2) (3/10) ∧
      noise permTab (1/2) (1/2) (3/10) ≤ 3/2) :=
  ⟨rfl, (noise_deterministic_and_bounded permTab (1/2) (1/2) (3/10)
    (1/2) (1/2) (3/10) rfl rfl rfl).2⟩

end NoiseRange

end Ray
